/-
Verification of the detection-and-decision engine of the
`apa-multi-page-table-fixer` repository.

The Python source is shallowly embedded here:
* `src/utils/constants.py`   — `TABLE_TITLE_PATTERN` and the default format
  constants are embedded as an executable matcher for that one fixed
  regular expression (faithful to Python `re` semantics: leftmost match,
  greedy `\s+`/`\d+` with the (here exact) maximal-munch discipline,
  ordered alternation `(?:\.|\s+)`, and the lazy `([^\n]+?)(?:\n|$)` tail,
  which stops at the first newline).
* `src/core/models.py`       — `TableInfo`, `FormatInfo`, `Modification`,
  `AnalysisResult` (with the derived counts recomputed as in
  `__post_init__`).  Font sizes are modelled as rationals.
* `src/core/analyzer.py`     — `_create_table_info`, `_analyze_page`
  (given the page text), `find_consecutive_repetitions` (the while loop is
  embedded with a structural fuel argument equal to the list length, which
  is provably sufficient because every run has length at least 1).
* `src/core/formatter.py`    — `extract_format`, `_find_format_by_search`,
  `_find_table_format`, `_create_format_info`, `_normalize_font_name`,
  `check_uniformity`, `get_common_format`.  The PyMuPDF page is abstracted
  as a record of the two backend operations the code consults
  (`search_for` and `get_text("rawdict", clip)`); spans carry the fields
  the code reads.  `extract_format`'s `try/except` wrapper is an `Except`.
* `src/rules/table_title_rule.py` — `_create_modifications`,
  `_extract_format_info`, `_check_format_uniformity`, and the assembly of
  the `AnalysisResult`; the per-occurrence format resolver is abstracted
  as a total function `TableInfo → FormatInfo` (justified by the theorem
  for C5: `extract_format` never errors on a readable document).
* `src/core/modifier.py`     — `apply_modifications` / `_replace_text`
  control flow.  The write-path backend (`_find_title_rect`, which wraps
  `search_for`/`get_text`, the redaction calls, and the success of
  `insert_text` for a given registered font name) is abstracted as a page
  record; `_load_font_if_needed`'s filesystem probing is abstracted as a
  `loader` function, and `_get_font_name`'s cache-miss base-font table is
  embedded exactly.
-/
import Mathlib

namespace ApaFix

/-! ### Character and list utilities (Python string semantics) -/

/-- Python whitespace (`\s` of the `re` module, ASCII range): space, tab,
newline, carriage return, vertical tab, form feed. -/
def isPySpace (c : Char) : Bool :=
  c = ' ' || c = '\t' || c = '\n' || c = '\r' || c = '\x0b' || c = '\x0c'

/-- ASCII lower-casing, as applied by Python `str.lower` on the ASCII
font/type-word material this program handles. -/
def lowerChar (c : Char) : Char := c.toLower

def lowerList (l : List Char) : List Char := l.map lowerChar

def lowerStr (s : String) : String := ⟨lowerList s.data⟩

/-- Python `str.capitalize`: first character upper-cased, the rest
lower-cased. -/
def pyCapitalize : List Char → List Char
  | [] => []
  | c :: cs => c.toUpper :: lowerList cs

/-- Python `str.strip()`: remove leading and trailing whitespace. -/
def pyStrip (l : List Char) : List Char :=
  ((l.dropWhile isPySpace).reverse.dropWhile isPySpace).reverse

/-- Python `re.sub(r'\s+', ' ', s)`: every maximal whitespace run becomes one
space.  The boolean records whether the previous character was part of a
whitespace run already rewritten. -/
def collapseWsAux : Bool → List Char → List Char
  | _, [] => []
  | prevSpace, c :: cs =>
    if isPySpace c then
      if prevSpace then collapseWsAux true cs
      else ' ' :: collapseWsAux true cs
    else c :: collapseWsAux false cs

def collapseWs (l : List Char) : List Char := collapseWsAux false l

/-- First index at which `needle` occurs in `haystack` (Python
`str.find`, as `Option`). -/
def listFind (needle : List Char) : List Char → Option Nat
  | [] => if needle.isEmpty then some 0 else none
  | c :: rest =>
    if needle.isPrefixOf (c :: rest) then some 0
    else (listFind needle rest).map (· + 1)

/-- Python `needle in haystack` on strings. -/
def containsSub (haystack needle : List Char) : Bool :=
  (listFind needle haystack).isSome

/-- Match `pat` (given lower-case) case-insensitively as a prefix of `s`;
return the actually matched characters and the rest. -/
def icMatchWord : List Char → List Char → Option (List Char × List Char)
  | [], s => some ([], s)
  | _ :: _, [] => none
  | p :: ps, c :: cs =>
    if lowerChar c = p then
      (icMatchWord ps cs).map (fun m => (c :: m.1, m.2))
    else none

/-! ### The data model (`src/core/models.py`) -/

/-- Embeds `TableInfo`: one detected table-title occurrence. -/
structure TableInfo where
  page : Nat
  number : String
  description : String
  full_title : String
  position : Nat
  table_type : String
deriving DecidableEq

/-- Embeds `FormatInfo`: font family name, size (rational model of the Python
float), bold/italic flags and an RGB colour triple. -/
structure FormatInfo where
  font_name : String
  font_size : ℚ
  is_bold : Bool
  is_italic : Bool
  color : Nat × Nat × Nat := (0, 0, 0)
deriving DecidableEq

/-- Exact rational addition, written out on numerators and denominators
(definitionally equal in value to `+` on `ℚ`, but stated via `mkRat` so
that the kernel can evaluate it on literals). -/
def ratAdd (a b : ℚ) : ℚ :=
  mkRat (a.num * (b.den : ℤ) + b.num * (a.den : ℤ)) (a.den * b.den)

/-- Exact rational subtraction via `mkRat` (see `ratAdd`). -/
def ratSub (a b : ℚ) : ℚ :=
  mkRat (a.num * (b.den : ℤ) - b.num * (a.den : ℤ)) (a.den * b.den)

/-- Python `abs` on the rational model of a float. -/
def ratAbs (q : ℚ) : ℚ := mkRat (Int.ofNat q.num.natAbs) q.den

/-- Model of `FormatInfo.__eq__`: font name exact, size within `0.1`, bold and
italic exact; colour ignored. -/
def formatEq (a b : FormatInfo) : Bool :=
  a.font_name == b.font_name
    && decide (ratAbs (ratSub a.font_size b.font_size) < mkRat 1 10)
    && a.is_bold == b.is_bold
    && a.is_italic == b.is_italic

/-- Python's `round` (banker's rounding, round half to even) of an exact
rational, computed by integer arithmetic on the reduced numerator and
denominator: `n` is the floor, `r` the remainder, and the half-way case
(`2r = den`) goes to the even neighbour. -/
def roundHalfEven (q : ℚ) : ℤ :=
  let n := Int.fdiv q.num (q.den : ℤ)
  let r := q.num - n * (q.den : ℤ)
  if 2 * r < (q.den : ℤ) then n
  else if (q.den : ℤ) < 2 * r then n + 1
  else if n % 2 = 0 then n else n + 1

/-- Python `round(x, 1)` expressed as the number of tenths:
`roundHalfEven` of `10 * x`. -/
def roundTenths (q : ℚ) : ℤ := roundHalfEven (mkRat (10 * q.num) q.den)

/-- Model of `FormatInfo.__hash__`'s key: the tuple
`(font_name, round(font_size, 1), is_bold, is_italic)`.  The rounded size
is represented by its number of tenths. -/
def pyHashKey (f : FormatInfo) : String × ℤ × Bool × Bool :=
  (f.font_name, roundTenths f.font_size, f.is_bold, f.is_italic)

/-- Embeds `Modification`: the planner's output unit. -/
structure Modification where
  page : Nat
  original_title : String
  modified_title : String
  repetition_number : Option Nat
  total_repetitions : Nat
  format_info : Option FormatInfo := none
deriving DecidableEq

/-- Model of `Modification.needs_modification`. -/
def needsModification (m : Modification) : Bool := m.repetition_number.isSome

/-- Embeds `AnalysisResult`. -/
structure AnalysisResult where
  all_tables : List TableInfo
  modifications : List Modification
  format_uniform : Bool
  format_info : Option FormatInfo
  total_tables : Nat
  tables_to_modify : Nat
deriving DecidableEq

/-- Model of `AnalysisResult.__post_init__`: the derived counts are recomputed
from the lists. -/
def mkAnalysisResult (tables : List TableInfo) (mods : List Modification)
    (uniform : Bool) (fi : Option FormatInfo) : AnalysisResult :=
  { all_tables := tables
    modifications := mods
    format_uniform := uniform
    format_info := fi
    total_tables := tables.length
    tables_to_modify := (mods.filter needsModification).length }

/-! ### The extractor: `TABLE_TITLE_PATTERN` and `_create_table_info`

The pattern is `(Cuadro|Tabla)\s+(\d+)(?:\.|\s+)([^\n]+?)(?:\n|$)` with
`re.IGNORECASE | re.MULTILINE`. -/

/-- One raw regex match: absolute start offset, the whole match
(`group(0)`) and the three capture groups. -/
structure RMatch where
  start : Nat
  g0 : List Char
  g1 : List Char
  g2 : List Char
  g3 : List Char
deriving DecidableEq

/-- The tail `([^\n]+?)(?:\n|$)` of the pattern at a given suffix: the
lazy group takes the (non-empty) run of non-newline characters up to the
first newline, which is consumed when present (`$` only fires at the end
of the input, since a position before `'\n'` is claimed by the ordered
`\n` alternative first).  Returns the group, whether a newline was
consumed, and the rest. -/
def descTail (l : List Char) : Option (List Char × Bool × List Char) :=
  let p := l.takeWhile (· ≠ '\n')
  if p.isEmpty then none
  else
    match l.drop p.length with
    | '\n' :: r => some (p, true, r)
    | [] => some (p, false, [])
    | _ => none

/-- The `\s+` alternative of the separator `(?:\.|\s+)`, greedy with
backtracking: try the maximal whitespace run first, then shorter ones,
stopping at the first length whose continuation (`descTail`) succeeds. -/
def sepSpaces (l : List Char) : Nat → Option (List Char × List Char × Bool × List Char)
  | 0 => none
  | k + 1 =>
    if (l.take (k + 1)).all isPySpace then
      match descTail (l.drop (k + 1)) with
      | some (g3, nl, rest) => some (l.take (k + 1), g3, nl, rest)
      | none => sepSpaces l k
    else sepSpaces l k

/-- The separator-and-description part `(?:\.|\s+)([^\n]+?)(?:\n|$)`: the
alternation tries the period first; on its failure only the whitespace
branch remains (a period is not whitespace, so the two branches never
overlap). -/
def sepAndDesc (l : List Char) : Option (List Char × List Char × Bool × List Char) :=
  match l with
  | '.' :: r =>
    match descTail r with
    | some (g3, nl, rest) => some (['.'], g3, nl, rest)
    | none => none
  | _ => sepSpaces l (l.takeWhile isPySpace).length

/-- Attempt the whole pattern at the head of `s`.  `\s+` and `\d+` are
matched by maximal munch, which is exact here because the character class
that follows each of them is disjoint from the one being repeated. -/
def matchSuffix (s : List Char) : Option RMatch :=
  match icMatchWord "cuadro".data s <|> icMatchWord "tabla".data s with
  | none => none
  | some (w, r1) =>
    let ws := r1.takeWhile isPySpace
    if ws.isEmpty then none
    else
      let r2 := r1.drop ws.length
      let ds := r2.takeWhile Char.isDigit
      if ds.isEmpty then none
      else
        match sepAndDesc (r2.drop ds.length) with
        | none => none
        | some (sep, g3, nl, _) =>
          some { start := 0
                 g0 := w ++ ws ++ ds ++ sep ++ g3 ++ (if nl then ['\n'] else [])
                 g1 := w, g2 := ds, g3 := g3 }

/-- Python `finditer`: scan start positions left to right; after a match resume
at its end.  The fuel (the length of the text) dominates the number of
steps because every match consumes at least one character. -/
def findIterAux : Nat → List Char → Nat → List RMatch
  | 0, _, _ => []
  | _, [], _ => []
  | fuel + 1, s@(_ :: rest), pos =>
    match matchSuffix s with
    | some m =>
      { m with start := pos }
        :: findIterAux fuel (s.drop (max m.g0.length 1)) (pos + max m.g0.length 1)
    | none => findIterAux fuel rest (pos + 1)

def findMatches (s : String) : List RMatch :=
  findIterAux s.data.length s.data 0

/-- Model of `PDFAnalyzer._create_table_info`: normalize the description, detect
whether the source had a period right after the number (by re-inspecting
`group(0)`), and reconstruct the canonical display string. -/
def createTableInfo (m : RMatch) (pageNum : Nat) : TableInfo :=
  let description := collapseWs (pyStrip m.g3)
  let tableTypeCap := pyCapitalize m.g1
  let hasPeriod :=
    match listFind m.g2 m.g0 with
    | some numberPos =>
      let afterNumberStart := numberPos + m.g2.length
      if afterNumberStart < m.g0.length then
        (pyStrip ((m.g0.drop afterNumberStart).take 2)).head? == some '.'
      else false
    | none => false
  let fullTitle :=
    if hasPeriod then
      tableTypeCap ++ [' '] ++ m.g2 ++ ['.', ' '] ++ description
    else
      tableTypeCap ++ [' '] ++ m.g2 ++ [' '] ++ description
  { page := pageNum
    number := ⟨m.g2⟩
    description := ⟨description⟩
    full_title := ⟨fullTitle⟩
    position := m.start
    table_type := ⟨tableTypeCap⟩ }

/-- Model of `PDFAnalyzer._analyze_page`, given the already-extracted page text:
empty text contributes no occurrences; otherwise every pattern match
becomes a `TableInfo`. -/
def analyzePage (text : String) (pageNum : Nat) : List TableInfo :=
  if text.isEmpty then []
  else (findMatches text).map (fun m => createTableInfo m pageNum)

/-! ### The grouper: `PDFAnalyzer.find_consecutive_repetitions` -/

/-- The inner `while` loop: starting from count `c`, keep extending the
run while the next occurrence has an identical canonical display string
and page number exactly `current.page + count`. -/
def countRun (current : TableInfo) : List TableInfo → Nat → Nat
  | [], c => c
  | t :: ts, c =>
    if t.full_title = current.full_title ∧ t.page = current.page + c then
      countRun current ts (c + 1)
    else c

/-- The outer loop, with a structural fuel argument: each iteration emits
one run and skips its `count` occurrences.  `tables.length` fuel is
sufficient because every run has length at least 1. -/
def fcrAux : Nat → List TableInfo → List (TableInfo × Nat)
  | 0, _ => []
  | _, [] => []
  | fuel + 1, t :: ts =>
    (t, countRun t ts 1) :: fcrAux fuel (ts.drop (countRun t ts 1 - 1))

def findConsecutiveRepetitions (tables : List TableInfo) : List (TableInfo × Nat) :=
  fcrAux tables.length tables

/-- Cut `xs` into consecutive segments of the given lengths (laid end to
end from the front). -/
def segments {α : Type} : List α → List Nat → List (List α)
  | _, [] => []
  | xs, n :: ns => xs.take n :: segments (xs.drop n) ns

/-- Pair every run with the index (into the occurrence sequence) at which
its block starts: run `k` starts at the sum of the lengths of runs
`0..k-1`. -/
def withStarts (s : Nat) : List (TableInfo × Nat) → List (Nat × TableInfo × Nat)
  | [] => []
  | (t, c) :: reps => (s, t, c) :: withStarts (s + c) reps

/-! ### The planner: `TableTitleRule._create_modifications` -/

/-- The replacement display string `f"{full_title} ({i}/{count})"`. -/
def rewriteTitle (t : String) (i n : Nat) : String :=
  t ++ " (" ++ toString i ++ "/" ++ toString n ++ ")"

/-- The decision emitted for the `i`-th occurrence (1-based) of a run of
length `n > 1`. -/
def mkRewriteMod (x : TableInfo) (i n : Nat) (fi : FormatInfo) : Modification :=
  { page := x.page
    original_title := x.full_title
    modified_title := rewriteTitle x.full_title i n
    repetition_number := some i
    total_repetitions := n
    format_info := some fi }

/-- The decision emitted for a run of length 1 (no rewrite needed). -/
def mkKeepMod (t : TableInfo) (fi : FormatInfo) : Modification :=
  { page := t.page
    original_title := t.full_title
    modified_title := t.full_title
    repetition_number := none
    total_repetitions := 1
    format_info := some fi }

/-- The loop of `_create_modifications`: `idx` is the running
`table_index`.  For a run of length `> 1` the occurrences are fetched
from the full occurrence list at `table_index + i` (`getD` stands in for
Python's indexing, whose index is in bounds for grouper output — proved
below); for a run of length 1 the representative itself is used and the
total is the literal `1` of the source.  `fmt` abstracts
`format_analyzer.extract_format(pdf_path, ·)`. -/
def cmGo (tables : List TableInfo) (fmt : TableInfo → FormatInfo) :
    List (TableInfo × Nat) → Nat → List Modification
  | [], _ => []
  | (t, c) :: reps, idx =>
    (if 1 < c then
      (List.range c).map (fun i =>
        mkRewriteMod ((tables[idx + i]?).getD t) (i + 1) c
          (fmt ((tables[idx + i]?).getD t)))
    else [mkKeepMod t (fmt t)])
      ++ cmGo tables fmt reps (idx + c)

def createModifications (tables : List TableInfo)
    (reps : List (TableInfo × Nat)) (fmt : TableInfo → FormatInfo) :
    List Modification :=
  cmGo tables fmt reps 0

/-! ### Lemmas about `countRun` and the grouper -/

theorem countRun_ge (current : TableInfo) :
    ∀ (ts : List TableInfo) (c : Nat), c ≤ countRun current ts c := by
  intro ts
  induction ts with
  | nil => intro c; simp [countRun]
  | cons t ts ih =>
    intro c
    simp only [countRun]
    split
    · exact le_trans (Nat.le_succ c) (ih (c + 1))
    · exact le_refl c

theorem countRun_le (current : TableInfo) :
    ∀ (ts : List TableInfo) (c : Nat), countRun current ts c ≤ c + ts.length := by
  intro ts
  induction ts with
  | nil => intro c; simp [countRun]
  | cons t ts ih =>
    intro c
    simp only [countRun, List.length_cons]
    split
    · exact le_trans (ih (c + 1)) (by omega)
    · omega

/-- Every occurrence inside a run (beyond the representative) has the
representative's display string and page number `representative.page +
offset`. -/
theorem countRun_get (current : TableInfo) :
    ∀ (ts : List TableInfo) (c j : Nat), c + j < countRun current ts c →
      ∃ x, ts[j]? = some x ∧ x.full_title = current.full_title ∧
        x.page = current.page + (c + j) := by
  intro ts
  induction ts with
  | nil => intro c j h; simp only [countRun] at h; omega
  | cons t ts ih =>
    intro c j h
    simp only [countRun] at h
    split at h
    · rename_i hcond
      cases j with
      | zero =>
        exact ⟨t, by simp, hcond.1, by simpa using hcond.2⟩
      | succ j' =>
        obtain ⟨x, hx, ht, hp⟩ := ih (c + 1) j' (by omega)
        exact ⟨x, by simpa using hx, ht, by rw [hp]; ring_nf⟩
    · omega

/-- Run membership, phrased on the run's own block `t :: ts`. -/
theorem run_member (t : TableInfo) (ts : List TableInfo) (i : Nat) (x : TableInfo)
    (hi : i < countRun t ts 1) (hx : (t :: ts)[i]? = some x) :
    x.full_title = t.full_title ∧ x.page = t.page + i := by
  cases i with
  | zero =>
    simp only [List.getElem?_cons_zero, Option.some.injEq] at hx
    subst hx
    exact ⟨rfl, by omega⟩
  | succ j =>
    simp only [List.getElem?_cons_succ] at hx
    obtain ⟨y, hy, ht, hp⟩ := countRun_get t ts 1 j (by omega)
    rw [hy] at hx
    cases hx
    exact ⟨ht, by omega⟩

theorem fcrAux_nil : ∀ fuel, fcrAux fuel [] = [] := by
  intro fuel; cases fuel <;> rfl

/-- The result of the fuelled loop does not depend on the fuel, as long
as the fuel is at least the list length. -/
theorem fcrAux_congr :
    ∀ (f₁ f₂ : Nat) (l : List TableInfo), l.length ≤ f₁ → l.length ≤ f₂ →
      fcrAux f₁ l = fcrAux f₂ l := by
  intro f₁
  induction f₁ with
  | zero =>
    intro f₂ l h₁ _
    have : l = [] := List.length_eq_zero.mp (by omega)
    subst this
    rw [fcrAux_nil, fcrAux_nil]
  | succ f₁ ih =>
    intro f₂ l h₁ h₂
    cases l with
    | nil => rw [fcrAux_nil, fcrAux_nil]
    | cons t ts =>
      cases f₂ with
      | zero => simp at h₂
      | succ f₂ =>
        simp only [fcrAux]
        congr 1
        exact ih f₂ (ts.drop (countRun t ts 1 - 1))
          (by simp only [List.length_drop, List.length_cons] at h₁ ⊢; omega)
          (by simp only [List.length_drop, List.length_cons] at h₂ ⊢; omega)

theorem fcr_cons (t : TableInfo) (ts : List TableInfo) :
    findConsecutiveRepetitions (t :: ts) =
      (t, countRun t ts 1)
        :: findConsecutiveRepetitions (ts.drop (countRun t ts 1 - 1)) := by
  show fcrAux (ts.length + 1) (t :: ts) = _
  simp only [fcrAux]
  congr 1
  exact fcrAux_congr ts.length (ts.drop (countRun t ts 1 - 1)).length _
    (by simp only [List.length_drop]; omega) (le_refl _)

/-- Partition property of the grouper, proved by strong induction on the
length (the fuel of the induction mirrors the fuel of the loop). -/
theorem fcr_partition_aux :
    ∀ (n : Nat) (tables : List TableInfo), tables.length ≤ n →
      ((findConsecutiveRepetitions tables).map Prod.snd).sum = tables.length ∧
      (segments tables ((findConsecutiveRepetitions tables).map Prod.snd)).flatten = tables ∧
      ∀ pr ∈ List.zip (findConsecutiveRepetitions tables)
          (segments tables ((findConsecutiveRepetitions tables).map Prod.snd)),
        pr.2.head? = some pr.1.1 ∧ pr.2.length = pr.1.2 := by
  intro n
  induction n with
  | zero =>
    intro tables h
    have : tables = [] := List.length_eq_zero.mp (by omega)
    subst this
    refine ⟨rfl, rfl, ?_⟩
    intro pr hpr
    simp [findConsecutiveRepetitions, fcrAux, segments] at hpr
  | succ n ih =>
    intro tables h
    cases tables with
    | nil =>
      refine ⟨rfl, rfl, ?_⟩
      intro pr hpr
      simp [findConsecutiveRepetitions, fcrAux, segments] at hpr
    | cons t ts =>
      rw [fcr_cons]
      have hc1 : 1 ≤ countRun t ts 1 := countRun_ge t ts 1
      have hcle : countRun t ts 1 ≤ 1 + ts.length := countRun_le t ts 1
      obtain ⟨k, hk⟩ : ∃ k, countRun t ts 1 = k + 1 :=
        ⟨countRun t ts 1 - 1, by omega⟩
      rw [hk]
      simp only [Nat.add_sub_cancel]
      have hk' : k ≤ ts.length := by omega
      have hlen : (ts.drop k).length ≤ n := by
        simp only [List.length_drop]
        simp only [List.length_cons] at h
        omega
      obtain ⟨ihsum, ihjoin, ihzip⟩ := ih (ts.drop k) hlen
      refine ⟨?_, ?_, ?_⟩
      · simp only [List.map_cons, List.sum_cons, ihsum, List.length_drop,
          List.length_cons]
        omega
      · simp only [List.map_cons, segments, List.drop_succ_cons,
          List.take_succ_cons, List.flatten_cons, ihjoin]
        simp only [List.cons_append, List.take_append_drop]
      · intro pr hpr
        simp only [List.map_cons, segments, List.drop_succ_cons,
          List.take_succ_cons] at hpr
        rw [List.zip_cons_cons] at hpr
        rcases List.mem_cons.mp hpr with heq | hmem
        · subst heq
          refine ⟨rfl, ?_⟩
          simp only [List.length_cons, List.length_take,
            Nat.min_eq_left hk']
        · exact ihzip pr hmem

/-- Correspondence between the grouper's runs and the planner's decision
list, proved by the same induction as the partition property.  `idx` is
the planner's running `table_index`; the run starting at `s` contributes
the decisions at output positions `s - idx .. s - idx + c - 1`. -/
theorem cmGo_spec :
    ∀ (n : Nat) (tables : List TableInfo) (fmt : TableInfo → FormatInfo) (idx : Nat),
      (tables.drop idx).length ≤ n →
      (cmGo tables fmt (findConsecutiveRepetitions (tables.drop idx)) idx).length
        = (tables.drop idx).length ∧
      ∀ s t c,
        (s, t, c) ∈ withStarts idx (findConsecutiveRepetitions (tables.drop idx)) →
        idx ≤ s ∧
        (c = 1 →
          (cmGo tables fmt (findConsecutiveRepetitions (tables.drop idx)) idx)[s - idx]?
            = some (mkKeepMod t (fmt t))) ∧
        (1 < c → ∀ i, i < c →
          ∃ x, tables[s + i]? = some x ∧ x.full_title = t.full_title ∧
            x.page = t.page + i ∧
            (cmGo tables fmt (findConsecutiveRepetitions (tables.drop idx)) idx)[s - idx + i]?
              = some (mkRewriteMod x (i + 1) c (fmt x))) := by
  intro n
  induction n with
  | zero =>
    intro tables fmt idx h
    have hnil : tables.drop idx = [] := List.length_eq_zero.mp (by omega)
    rw [hnil]
    refine ⟨rfl, ?_⟩
    intro s t c hmem
    simp [findConsecutiveRepetitions, fcrAux, withStarts] at hmem
  | succ n ih =>
    intro tables fmt idx h
    cases hdrop : tables.drop idx with
    | nil =>
      refine ⟨rfl, ?_⟩
      intro s t c hmem
      simp [findConsecutiveRepetitions, fcrAux, withStarts] at hmem
    | cons t ts =>
      rw [fcr_cons]
      have hc1 : 1 ≤ countRun t ts 1 := countRun_ge t ts 1
      have hcle : countRun t ts 1 ≤ 1 + ts.length := countRun_le t ts 1
      obtain ⟨k, hk⟩ : ∃ k, countRun t ts 1 = k + 1 :=
        ⟨countRun t ts 1 - 1, by omega⟩
      rw [hk]
      simp only [Nat.add_sub_cancel]
      have hkts : k ≤ ts.length := by omega
      have hrest : ts.drop k = tables.drop (idx + (k + 1)) := by
        rw [← List.drop_drop, hdrop, List.drop_succ_cons]
      have hlen' : (tables.drop (idx + (k + 1))).length ≤ n := by
        rw [← hrest]
        rw [hdrop] at h
        simp only [List.length_drop]
        simp only [List.length_cons] at h
        omega
      obtain ⟨ihlen, ihmem⟩ := ih tables fmt (idx + (k + 1)) hlen'
      rw [← hrest] at ihlen ihmem
      simp only [cmGo]
      have hblock :
          (if 1 < k + 1 then
            (List.range (k + 1)).map (fun i =>
              mkRewriteMod ((tables[idx + i]?).getD t) (i + 1) (k + 1)
                (fmt ((tables[idx + i]?).getD t)))
          else [mkKeepMod t (fmt t)]).length = k + 1 := by
        split
        · simp
        · rename_i hnot
          simp only [List.length_singleton]
          omega
      constructor
      · rw [List.length_append, hblock, ihlen]
        simp only [List.length_drop, List.length_cons]
        omega
      · intro s t' c' hmem
        simp only [withStarts] at hmem
        rcases List.mem_cons.mp hmem with heq | hmem'
        · -- the head run: s = idx, t' = t, c' = k + 1
          obtain ⟨hs, ht', hc'⟩ : s = idx ∧ t' = t ∧ c' = k + 1 := by
            injection heq with h1 h2
            injection h2 with h2a h2b
            exact ⟨h1, h2a, h2b⟩
          subst hc'
          replace hs := hs.symm
          subst hs
          replace ht' := ht'.symm
          subst ht'
          refine ⟨le_refl _, ?_, ?_⟩
          · intro hone
            have hk0 : k = 0 := by omega
            subst hk0
            rw [if_neg (by omega : ¬ ((1 : Nat) < 0 + 1))]
            simp [Nat.sub_self]
          · intro hgt i hi
            have hi' : i < (t :: ts).length := by
              simp only [List.length_cons]; omega
            have hx : (t :: ts)[i]? = some ((t :: ts).get ⟨i, hi'⟩) :=
              List.getElem?_eq_getElem hi'
            have htx : tables[idx + i]? = some ((t :: ts).get ⟨i, hi'⟩) := by
              rw [← List.getElem?_drop, hdrop]
              exact hx
            obtain ⟨htitle, hpage⟩ :=
              run_member t ts i ((t :: ts).get ⟨i, hi'⟩) (by omega) hx
            refine ⟨(t :: ts).get ⟨i, hi'⟩, htx, htitle, hpage, ?_⟩
            rw [Nat.sub_self, Nat.zero_add]
            rw [List.getElem?_append_left (by rw [hblock]; omega)]
            rw [if_pos hgt]
            rw [List.getElem?_map, List.getElem?_range hi]
            simp [htx]
        · -- a later run: use the induction hypothesis at `idx + (k + 1)`
          obtain ⟨hle, hkeep, hrew⟩ := ihmem s t' c' hmem'
          refine ⟨by omega, ?_, ?_⟩
          · intro hone
            rw [List.getElem?_append_right (by rw [hblock]; omega)]
            rw [hblock]
            rw [show s - idx - (k + 1) = s - (idx + (k + 1)) from by omega]
            exact hkeep hone
          · intro hgt i hi
            obtain ⟨x, hx, htitle, hpage, hm⟩ := hrew hgt i hi
            refine ⟨x, hx, htitle, hpage, ?_⟩
            rw [List.getElem?_append_right (by rw [hblock]; omega)]
            rw [hblock]
            rw [show s - idx + i - (k + 1) = s - (idx + (k + 1)) + i from by omega]
            exact hm

/-! ### Sample occurrences (identical titles on pages 2, 3 and 5) -/

def exA : TableInfo :=
  { page := 2, number := "1", description := "X", full_title := "Tabla 1. X",
    position := 0, table_type := "Tabla" }

def exB : TableInfo :=
  { page := 3, number := "1", description := "X", full_title := "Tabla 1. X",
    position := 0, table_type := "Tabla" }

def exC : TableInfo :=
  { page := 5, number := "1", description := "X", full_title := "Tabla 1. X",
    position := 0, table_type := "Tabla" }

/-- A constant format resolver used for concrete instantiations. -/
def fmtConst : TableInfo → FormatInfo :=
  fun _ => { font_name := "helv", font_size := 11, is_bold := false,
             is_italic := false, color := (0, 0, 0) }

/-! ### Claim theorems C1–C4 -/

/-- C2: the runs returned by `find_consecutive_repetitions` exactly
partition the input occurrence sequence: the run lengths sum to the input
length, the blocks (the input cut into consecutive segments of those
lengths) are contiguous, non-overlapping, and concatenate back to the
input in order, and each run's representative is the head of its block
with the run length equal to the block length. -/
theorem repetition_runs_partition (tables : List TableInfo) :
    ((findConsecutiveRepetitions tables).map Prod.snd).sum = tables.length ∧
    (segments tables ((findConsecutiveRepetitions tables).map Prod.snd)).flatten = tables ∧
    ∀ pr ∈ List.zip (findConsecutiveRepetitions tables)
        (segments tables ((findConsecutiveRepetitions tables).map Prod.snd)),
      pr.2.head? = some pr.1.1 ∧ pr.2.length = pr.1.2 :=
  fcr_partition_aux tables.length tables (le_refl _)

/-- Witness for C2: on occurrences with identical titles on pages 2, 3, 5
the first run's block is `[exA, exB]`, headed by its representative and of
the run's length. -/
theorem repetition_runs_partition_witness :
    ([exA, exB] : List TableInfo).head? = some exA ∧
    ([exA, exB] : List TableInfo).length = 2 :=
  (repetition_runs_partition [exA, exB, exC]).2.2 ((exA, 2), [exA, exB])
    (by decide)

/-- C3: run extension requires page-number adjacency: an occurrence at
offset `i` of a run has the representative's canonical display string and
page number exactly `representative.page + i`; and identically-titled
occurrences on pages 2, 3 and 5 produce exactly two runs, of lengths 2
and 1, never one run of length 3. -/
theorem run_page_adjacency :
    (∀ (t : TableInfo) (ts : List TableInfo) (i : Nat) (x : TableInfo),
      i < countRun t ts 1 → (t :: ts)[i]? = some x →
      x.full_title = t.full_title ∧ x.page = t.page + i) ∧
    findConsecutiveRepetitions [exA, exB, exC] = [(exA, 2), (exC, 1)] :=
  ⟨fun t ts i x hi hx => run_member t ts i x hi hx, by decide⟩

/-- Witness for C3: the second member of the pages-2-3 run has the
representative's title and page `2 + 1`. -/
theorem run_page_adjacency_witness :
    exB.full_title = exA.full_title ∧ exB.page = exA.page + 1 :=
  run_page_adjacency.1 exA [exB, exC] 1 exB (by decide) (by decide)

/-- C1: for every run emitted by the grouper, the planner emits exactly
one decision per occurrence of the run, in page order (the decision at
output position `s + i` belongs to the occurrence at input position
`s + i`, whose page is `representative.page + i`): for a run of length
`c > 1` the `i+1`-th decision's replacement string is the occurrence's
original display string followed by `" (i+1/c)"`, with position `i+1` and
total `c`; for a run of length 1 the single decision has an absent
position and a replacement string identical to the original. -/
theorem planner_decisions_per_run (tables : List TableInfo)
    (fmt : TableInfo → FormatInfo) :
    (createModifications tables (findConsecutiveRepetitions tables) fmt).length
      = tables.length ∧
    ∀ s t c, (s, t, c) ∈ withStarts 0 (findConsecutiveRepetitions tables) →
      (c = 1 →
        (createModifications tables (findConsecutiveRepetitions tables) fmt)[s]? =
          some { page := t.page, original_title := t.full_title,
                 modified_title := t.full_title, repetition_number := none,
                 total_repetitions := 1, format_info := some (fmt t) }) ∧
      (1 < c → ∀ i, i < c →
        ∃ x, tables[s + i]? = some x ∧ x.full_title = t.full_title ∧
          x.page = t.page + i ∧
          (createModifications tables (findConsecutiveRepetitions tables) fmt)[s + i]? =
            some { page := x.page, original_title := x.full_title,
                   modified_title := x.full_title ++ " (" ++ toString (i + 1)
                     ++ "/" ++ toString c ++ ")",
                   repetition_number := some (i + 1), total_repetitions := c,
                   format_info := some (fmt x) }) := by
  have h := cmGo_spec tables.length tables fmt 0 (by simp)
  rw [List.drop_zero] at h
  obtain ⟨hlen, hmem⟩ := h
  refine ⟨hlen, ?_⟩
  intro s t c hm
  obtain ⟨_, hkeep, hrew⟩ := hmem s t c hm
  constructor
  · intro h1
    have hk := hkeep h1
    rw [Nat.sub_zero] at hk
    exact hk
  · intro hgt i hi
    obtain ⟨x, hx, ht, hp, hm'⟩ := hrew hgt i hi
    rw [Nat.sub_zero] at hm'
    exact ⟨x, hx, ht, hp, hm'⟩

/-- Witness for C1: for the pages-2-3 run of `[exA, exB, exC]`, the
second decision (input position 1) rewrites `exB`'s title to
`"Tabla 1. X (2/2)"` with position 2 of 2. -/
theorem planner_decisions_per_run_witness :
    ∃ x, ([exA, exB, exC] : List TableInfo)[0 + 1]? = some x ∧
      x.full_title = exA.full_title ∧ x.page = exA.page + 1 ∧
      (createModifications [exA, exB, exC]
        (findConsecutiveRepetitions [exA, exB, exC]) fmtConst)[0 + 1]? =
        some { page := x.page, original_title := x.full_title,
               modified_title := x.full_title ++ " (" ++ toString (1 + 1)
                 ++ "/" ++ toString 2 ++ ")",
               repetition_number := some (1 + 1), total_repetitions := 2,
               format_info := some (fmtConst x) } :=
  ((planner_decisions_per_run [exA, exB, exC] fmtConst).2 0 exA 2
    (by decide)).2 (by decide) 1 (by decide)

/-- C4 counterexample: the pattern only recognizes the type-words
`Cuadro` and `Tabla`; a page whose text is literally
`"Table 3. Sample Desc\n"` (English type-word) yields no occurrence at
all, so no occurrence with display string `"Table 3. Sample Desc"`
exists. -/
theorem extractor_english_typeword_counterexample :
    analyzePage "Table 3. Sample Desc\n" 1 = [] := by decide

/-- C4 amended: separator fidelity for the supported type-words: a page
text containing literally `"Tabla 3. Sample Desc\n"` yields an occurrence
whose canonical display string is exactly `"Tabla 3. Sample Desc"`, and
`"Tabla 3 Sample Desc\n"` yields exactly `"Tabla 3 Sample Desc"` with no
period inserted. -/
theorem extractor_separator_fidelity :
    analyzePage "Tabla 3. Sample Desc\n" 1 =
      [{ page := 1, number := "3", description := "Sample Desc",
         full_title := "Tabla 3. Sample Desc", position := 0,
         table_type := "Tabla" }] ∧
    analyzePage "Tabla 3 Sample Desc\n" 1 =
      [{ page := 1, number := "3", description := "Sample Desc",
         full_title := "Tabla 3 Sample Desc", position := 0,
         table_type := "Tabla" }] ∧
    (∃ t ∈ analyzePage "Intro line\nTabla 3. Sample Desc\nMore text\n" 1,
      t.full_title = "Tabla 3. Sample Desc") ∧
    (∃ t ∈ analyzePage "Intro line\nTabla 3 Sample Desc\nMore text\n" 1,
      t.full_title = "Tabla 3 Sample Desc") := by
  refine ⟨by decide, by decide, by decide, by decide⟩

/-! ### Constants (`src/utils/constants.py`) and the format analyzer
(`src/core/formatter.py`) -/

def DEFAULT_FONT_NAME : String := "helv"

def DEFAULT_FONT_SIZE : ℚ := 11

def DEFAULT_COLOR : Nat × Nat × Nat := (0, 0, 0)

/-- The fixed default descriptor returned when every resolution heuristic
fails. -/
def defaultFormatInfo : FormatInfo :=
  { font_name := DEFAULT_FONT_NAME, font_size := DEFAULT_FONT_SIZE,
    is_bold := false, is_italic := false, color := DEFAULT_COLOR }

/-- One text-run span of a `rawdict` page dictionary, with the fields the
code reads (`text`, `font`, `size`, `flags`, `color`). -/
structure PdfSpan where
  text : String
  font : String
  size : ℚ
  flags : Nat
  color : Nat
deriving DecidableEq

structure PdfLine where
  spans : List PdfSpan
deriving DecidableEq

/-- A `rawdict` block; `lines = none` models an image block without a
`"lines"` key, which the code skips. -/
structure PdfBlock where
  lines : Option (List PdfLine)
deriving DecidableEq

structure PdfRect where
  x0 : ℚ
  y0 : ℚ
  x1 : ℚ
  y1 : ℚ
deriving DecidableEq

/-- The two PyMuPDF page operations the format analyzer consults:
`page.search_for(needle)` and `page.get_text("rawdict", clip)` (clip
`none` is the full page). -/
structure FitzPage where
  searchFor : String → List PdfRect
  getRawdict : Option PdfRect → List PdfBlock

/-- Embeds `_normalize_font_name`'s mapping table, in source (insertion)
order. -/
def fontMapping : List (String × String) :=
  [("times", "Times New Roman"),
   ("times-roman", "Times New Roman"),
   ("timesnewroman", "Times New Roman"),
   ("timesnewromanps", "Times New Roman"),
   ("timesnewromanpsmt", "Times New Roman"),
   ("helvetica", "Helvetica"),
   ("helv", "Helvetica"),
   ("arial", "Arial"),
   ("arialmt", "Arial"),
   ("calibri", "Calibri"),
   ("calibrimt", "Calibri"),
   ("verdana", "Verdana")]

/-- Model of `FormatAnalyzer._normalize_font_name`: first key that occurs
(case-insensitively) as a substring of the raw name wins; unrecognized
names pass through unchanged. -/
def normalizeFontName (fontName : String) : String :=
  let fontLower := lowerList fontName.data
  match fontMapping.find? (fun kv => containsSub fontLower kv.1.data) with
  | some kv => kv.2
  | none => fontName

/-- Model of `FormatAnalyzer._create_format_info`: bold is flag bit 4, italic is
flag bit 0; the integer colour is decomposed into RGB; the font name is
normalized. -/
def createFormatInfo (span : PdfSpan) : FormatInfo :=
  { font_name := normalizeFontName span.font
    font_size := span.size
    is_bold := span.flags &&& 16 != 0
    is_italic := span.flags &&& 1 != 0
    color := ((span.color >>> 16) &&& 255, (span.color >>> 8) &&& 255,
              span.color &&& 255) }

/-- Python `title.rstrip('.')`. -/
def rstripPeriods (s : String) : String :=
  ⟨(s.data.reverse.dropWhile (· == '.')).reverse⟩

/-- Python `re.search(r'(Cuadro|Tabla)\s+(\d+)', ·)` (case-insensitive) at one
position: the matched type-word (in source case) and the digit run. -/
def tryTypeNumAt (l : List Char) : Option (List Char × List Char) :=
  match icMatchWord "cuadro".data l <|> icMatchWord "tabla".data l with
  | none => none
  | some (w, r1) =>
    let ws := r1.takeWhile isPySpace
    if ws.isEmpty then none
    else
      let ds := (r1.drop ws.length).takeWhile Char.isDigit
      if ds.isEmpty then none else some (w, ds)

/-- Python `re.search` scanning for the first position that matches. -/
def searchTypeNum : List Char → Option (List Char × List Char)
  | [] => none
  | c :: rest =>
    match tryTypeNumAt (c :: rest) with
    | some r => some r
    | none => searchTypeNum rest

/-- The spans of a block list in document order, keeping only spans with
a non-empty font name and positive size (`_find_format_by_search`'s
validity filter). -/
def validSpans (blocks : List PdfBlock) : List PdfSpan :=
  (((blocks.map (fun b => b.lines.getD [])).flatten.map PdfLine.spans).flatten).filter
    (fun sp => sp.font != "" && decide (0 < sp.size))

/-- Model of `FormatAnalyzer._find_format_by_search`: search for the full display
string, then for it with trailing periods stripped, then for the
`"<TypeWord> <Number>"` prefix; on a hit, expand the first located
rectangle by the fixed margins and take the first valid span of the
clipped `rawdict`; otherwise the fixed default. -/
def findFormatBySearch (page : FitzPage) (table : TableInfo) : FormatInfo :=
  let title := table.full_title
  let inst1 := page.searchFor title
  let inst2 := if inst1.isEmpty then page.searchFor (rstripPeriods title) else inst1
  let inst3 :=
    if inst2.isEmpty then
      match searchTypeNum title.data with
      | some (ty, num) => page.searchFor ⟨ty ++ [' '] ++ num⟩
      | none => inst2
    else inst2
  match inst3.head? with
  | some rect =>
    let expanded : PdfRect :=
      ⟨ratSub rect.x0 5, ratSub rect.y0 2, ratAdd rect.x1 5, ratAdd rect.y1 2⟩
    match (validSpans (page.getRawdict (some expanded))).head? with
    | some sp => createFormatInfo sp
    | none => defaultFormatInfo
  | none => defaultFormatInfo

/-- Python `re.search(f"{ty}\s+{num}", line)` at one position (both sides
already lower-cased; `ty` and `num` are literal). -/
def tyNumAt (ty num : List Char) (l : List Char) : Bool :=
  if ty.isPrefixOf l then
    let r := l.drop ty.length
    let ws := r.takeWhile isPySpace
    !ws.isEmpty && num.isPrefixOf (r.drop ws.length)
  else false

def tyNumSearch (ty num : List Char) : List Char → Bool
  | [] => false
  | c :: rest => tyNumAt ty num (c :: rest) || tyNumSearch ty num rest

/-- The concatenated text of a line's spans. -/
def lineText (ln : PdfLine) : List Char :=
  (ln.spans.map (fun sp => sp.text.data)).flatten

/-- The candidate-span collection loop of `_find_table_format`: per line,
if the line matches `"{type}\s+{num}"`, append the first span containing
both the type-word and the number, or — only while no candidate has been
collected at all — the line's first span; independently, if the line
contains the full title, append every span containing `"cuadro"` or
`"tabla"`. -/
def collectCandidates (tn : Option (List Char × List Char))
    (titleLower : List Char) : List PdfLine → List PdfSpan → List PdfSpan
  | [], acc => acc
  | ln :: lns, acc =>
    let lt := lowerList (lineText ln)
    let acc1 :=
      match tn with
      | some (ty, num) =>
        if tyNumSearch ty num lt then
          match ln.spans.find? (fun sp =>
              containsSub (lowerList sp.text.data) ty
                && containsSub (lowerList sp.text.data) num) with
          | some sp => acc ++ [sp]
          | none =>
            match ln.spans with
            | [] => acc
            | sp0 :: _ => if acc.isEmpty then acc ++ [sp0] else acc
        else acc
      | none => acc
    let acc2 :=
      if containsSub lt titleLower then
        acc1 ++ ln.spans.filter (fun sp =>
          containsSub (lowerList sp.text.data) "cuadro".data
            || containsSub (lowerList sp.text.data) "tabla".data)
      else acc1
    collectCandidates tn titleLower lns acc2

/-- Model of `FormatAnalyzer._find_table_format`: full-page dictionary scan. -/
def findTableFormat (blocks : List PdfBlock) (title : String) : FormatInfo :=
  let titleLower := lowerList title.data
  let tn := searchTypeNum titleLower
  let lines := (blocks.map (fun b => b.lines.getD [])).flatten
  match collectCandidates tn titleLower lines [] with
  | sp :: _ => createFormatInfo sp
  | [] => defaultFormatInfo

/-- Model of `FormatAnalyzer.extract_format`: method 1 is the rectangle search; if
it came back with the default font name, method 2 re-scans the full-page
`rawdict`.  The `try/except` wrapper re-raising `FormatDetectionError` is
the `Except.error` branch, reachable only when the occurrence's page is
missing from the document. -/
def extractFormat (doc : List FitzPage) (table : TableInfo) :
    Except String FormatInfo :=
  match doc[table.page - 1]? with
  | none => Except.error "FormatDetectionError"
  | some page =>
    let fi := findFormatBySearch page table
    if fi.font_name = DEFAULT_FONT_NAME then
      Except.ok (findTableFormat (page.getRawdict none) table.full_title)
    else Except.ok fi

/-- Model of `FormatAnalyzer.check_uniformity`: empty list is uniform; otherwise
every element must tolerantly equal the first element. -/
def checkUniformity (formats : List FormatInfo) : Bool :=
  match formats with
  | [] => true
  | first :: _ => formats.all (fun f => formatEq f first)

/-- One step of the counting dict of `get_common_format`.  A Python dict
key matches iff its hash matches and the (tolerant) equality holds. -/
def bumpCount : List (FormatInfo × Nat) → FormatInfo → List (FormatInfo × Nat)
  | [], f => [(f, 1)]
  | (k, n) :: rest, f =>
    if pyHashKey k = pyHashKey f ∧ formatEq k f = true then (k, n + 1) :: rest
    else (k, n) :: bumpCount rest f

/-- Python `max(items, key=snd)`: keeps the first item among ties. -/
def maxBySndGo (best : FormatInfo) (bestN : Nat) :
    List (FormatInfo × Nat) → FormatInfo
  | [] => best
  | (g, m) :: rest =>
    if bestN < m then maxBySndGo g m rest else maxBySndGo best bestN rest

/-- Model of `FormatAnalyzer.get_common_format`. -/
def getCommonFormat (formats : List FormatInfo) : Option FormatInfo :=
  match formats.foldl bumpCount [] with
  | [] => none
  | (f, n) :: rest => some (maxBySndGo f n rest)

/-! ### The rule's analysis assembly (`src/rules/table_title_rule.py`) -/

/-- Model of `TableTitleRule._extract_format_info`: common format of the first 10
occurrences' resolved formats; absent for an empty occurrence list. -/
def extractFormatInfo (tables : List TableInfo)
    (fmt : TableInfo → FormatInfo) : Option FormatInfo :=
  if tables.isEmpty then none
  else getCommonFormat ((tables.take 10).map fmt)

/-- Model of `TableTitleRule._check_format_uniformity`: uniformity of the first
`min(20, n)` occurrences' resolved formats; `true` for an empty list. -/
def checkFormatUniformity (tables : List TableInfo)
    (fmt : TableInfo → FormatInfo) : Bool :=
  if tables.isEmpty then true
  else checkUniformity ((tables.take (min 20 tables.length)).map fmt)

/-- Model of `TableTitleRule.analyze`, from the extracted occurrence sequence on:
group, plan, resolve the document-wide format sample and the uniformity
sample, and assemble the `AnalysisResult` (derived counts recomputed).
`fmt` abstracts the per-occurrence resolver
`format_analyzer.extract_format(pdf_path, ·)`. -/
def analyzeFromTables (tables : List TableInfo)
    (fmt : TableInfo → FormatInfo) : AnalysisResult :=
  mkAnalysisResult tables
    (createModifications tables (findConsecutiveRepetitions tables) fmt)
    (checkFormatUniformity tables fmt)
    (extractFormatInfo tables fmt)

/-! ### Substring lemmas used for the normalization claims -/

theorem isPrefixOf_append_left {p q l : List Char}
    (h : (p ++ q).isPrefixOf l = true) : p.isPrefixOf l = true := by
  rw [List.isPrefixOf_iff_prefix] at h ⊢
  exact (List.prefix_append p q).trans h

/-- If a haystack contains `p ++ q` then it contains `p`. -/
theorem containsSub_mono (p q : List Char) :
    ∀ s : List Char, containsSub s (p ++ q) = true → containsSub s p = true := by
  intro s
  induction s with
  | nil =>
    intro h
    simp only [containsSub, listFind] at h ⊢
    split at h
    · rename_i hemp
      have hp : p.isEmpty = true := by
        cases p with
        | nil => rfl
        | cons a as => simp [List.isEmpty] at hemp
      rw [if_pos hp]
      rfl
    · simp at h
  | cons c rest ih =>
    intro h
    simp only [containsSub, listFind] at h ⊢
    by_cases hpre : (p ++ q).isPrefixOf (c :: rest) = true
    · rw [if_pos (isPrefixOf_append_left hpre)]
      rfl
    · rw [if_neg hpre] at h
      simp only [Option.isSome_map'] at h
      have hrest := ih h
      by_cases hp2 : p.isPrefixOf (c :: rest) = true
      · rw [if_pos hp2]
        rfl
      · rw [if_neg hp2]
        simpa [Option.isSome_map'] using hrest

/-- A key extending a key whose containment already fails cannot be
contained either. -/
theorem containsSub_step (lf k pre suf : List Char) (hk : k = pre ++ suf)
    (hpre : containsSub lf pre = false) : containsSub lf k = false := by
  cases hcs : containsSub lf k with
  | false => rfl
  | true =>
    rw [hk] at hcs
    have h := containsSub_mono pre suf lf hcs
    rw [hpre] at h
    exact Bool.noConfusion h

/-! ### Claim theorems C5, C6, C7, C9, C10 -/

/-- C5: format resolution never raises on a readable document: whenever
the occurrence's page exists, `extract_format` returns a descriptor
(`Except.ok`); and when every heuristic fails (no search hit, no rawdict
content) it returns exactly the fixed default descriptor. -/
theorem extract_format_total (doc : List FitzPage) (table : TableInfo)
    (page : FitzPage) (hpage : doc[table.page - 1]? = some page) :
    (∃ fi, extractFormat doc table = Except.ok fi) ∧
    (page.searchFor = (fun _ => []) → page.getRawdict = (fun _ => []) →
      extractFormat doc table = Except.ok defaultFormatInfo) := by
  constructor
  · simp only [extractFormat, hpage]
    split
    · exact ⟨_, rfl⟩
    · exact ⟨_, rfl⟩
  · intro hs hr
    have hsearch : findFormatBySearch page table = defaultFormatInfo := by
      simp only [findFormatBySearch, hs]
      cases hstn : searchTypeNum table.full_title.data with
      | none => simp
      | some r =>
        obtain ⟨ty, num⟩ := r
        simp
    simp only [extractFormat, hpage, hsearch]
    have hname : defaultFormatInfo.font_name = DEFAULT_FONT_NAME := rfl
    rw [if_pos hname, hr]
    rfl

/-- Witness for C5: on a document whose pages answer no searches and
yield no rawdict content, resolution of `exA` (page 2) returns exactly
the default descriptor, without error. -/
theorem extract_format_total_witness :
    extractFormat [⟨fun _ => [], fun _ => []⟩, ⟨fun _ => [], fun _ => []⟩] exA
      = Except.ok defaultFormatInfo :=
  (extract_format_total _ exA ⟨fun _ => [], fun _ => []⟩ rfl).2 rfl rfl

def fmtC6a : FormatInfo :=
  { font_name := "Arial", font_size := 11, is_bold := false,
    is_italic := false, color := (0, 0, 0) }

def fmtC6b : FormatInfo :=
  { font_name := "Arial", font_size := mkRat 1109 100, is_bold := false,
    is_italic := false, color := (10, 20, 30) }

def fmtC6c : FormatInfo :=
  { font_name := "Arial", font_size := mkRat 1102 100, is_bold := false,
    is_italic := false, color := (5, 5, 5) }

/-- C6 counterexample: two descriptors that are equal under the tolerant
equality (sizes 11 and 11.09 differ by less than 0.1) but whose
hash/counting keys differ, because 11 and 11.09 round to different first
decimals.  The tolerant equality is not even transitive, so no hash can
be consistent with it. -/
theorem format_hash_key_counterexample :
    formatEq fmtC6a fmtC6b = true ∧ pyHashKey fmtC6a ≠ pyHashKey fmtC6b := by
  exact ⟨by decide, by decide⟩

/-- C6 amended: the hash/counting key agrees on tolerantly-equal
descriptors provided their font sizes also round to the same first
decimal (the key ignores color and uses the rounded size). -/
theorem format_hash_key_amended (a b : FormatInfo) (h : formatEq a b = true)
    (hr : roundTenths a.font_size = roundTenths b.font_size) :
    pyHashKey a = pyHashKey b := by
  simp only [formatEq, Bool.and_eq_true, beq_iff_eq] at h
  obtain ⟨⟨⟨hn, _⟩, hb⟩, hi⟩ := h
  simp only [pyHashKey, hn, hb, hi, hr]

/-- Witness for C6 amended: sizes 11 and 11.02 are tolerantly equal,
round alike, and indeed share the key despite different colors. -/
theorem format_hash_key_amended_witness :
    pyHashKey fmtC6a = pyHashKey fmtC6c :=
  format_hash_key_amended fmtC6a fmtC6c (by decide) (by decide)

/-- C7: the uniformity verdict is computed from at most the first
`min(20, n)` occurrences: if the resolved formats of that sample are
pairwise tolerantly equal, `analyze` reports `format_uniform = true`
regardless of the formats of all later occurrences. -/
theorem uniformity_from_sample (tables : List TableInfo)
    (fmt : TableInfo → FormatInfo)
    (h : ∀ x ∈ tables.take (min 20 tables.length),
         ∀ y ∈ tables.take (min 20 tables.length),
         formatEq (fmt x) (fmt y) = true) :
    (analyzeFromTables tables fmt).format_uniform = true := by
  show checkFormatUniformity tables fmt = true
  unfold checkFormatUniformity
  split
  · rfl
  · cases hml : (tables.take (min 20 tables.length)).map fmt with
    | nil => simp [checkUniformity]
    | cons f rest =>
      have hx0 : ∃ x₀, x₀ ∈ tables.take (min 20 tables.length) ∧ fmt x₀ = f := by
        cases htk : tables.take (min 20 tables.length) with
        | nil => rw [htk] at hml; simp at hml
        | cons a as =>
          rw [htk] at hml
          simp only [List.map_cons, List.cons.injEq] at hml
          exact ⟨a, List.mem_cons_self a as, hml.1⟩
      obtain ⟨x₀, hx0m, hx0e⟩ := hx0
      simp only [checkUniformity, List.all_eq_true]
      intro g hg
      rw [← hml] at hg
      obtain ⟨x, hxm, rfl⟩ := List.mem_map.mp hg
      rw [← hx0e]
      exact h x hxm x₀ hx0m

/-- A set of 1001 occurrences: pages 1..1001 of the same title. -/
def bigTables : List TableInfo :=
  (List.range 1001).map (fun i =>
    { page := i + 1, number := "1", description := "D",
      full_title := "Tabla 1. D", position := 0, table_type := "Tabla" })

/-- A resolver giving the last occurrence (page 1001) a different format
from the identically-formatted first 1000. -/
def bigFmt : TableInfo → FormatInfo := fun t =>
  if t.page = 1001 then
    { font_name := "Times New Roman", font_size := 12, is_bold := true,
      is_italic := false, color := (0, 0, 0) }
  else
    { font_name := "Arial", font_size := 11, is_bold := false,
      is_italic := false, color := (0, 0, 0) }

set_option maxRecDepth 40000 in
/-- Witness for C7: 1000 identically-formatted occurrences followed by
one differently-formatted occurrence are still reported uniform, because
only the first 20 are sampled. -/
theorem uniformity_from_sample_witness :
    (analyzeFromTables bigTables bigFmt).format_uniform = true :=
  uniformity_from_sample bigTables bigFmt (by decide)

def tbl9 : TableInfo :=
  { page := 1, number := "4", description := "Algo",
    full_title := "Tabla 4. Algo", position := 0, table_type := "Tabla" }

def span9 : PdfSpan :=
  { text := "Tabla 4. Algo", font := "ArialMT", size := 12, flags := 0,
    color := 0 }

/-- A page on which the full-title search (and its period-stripped
variant) fails, but the `"Tabla 4"` prefix search succeeds; the expanded
located rectangle contains one span with font `ArialMT`, size 12, no
bold, no italic. -/
def page9 : FitzPage :=
  { searchFor := fun s => if s = "Tabla 4" then [⟨10, 20, 50, 30⟩] else []
    getRawdict := fun clip =>
      if clip = some ⟨5, 18, 55, 32⟩ then [⟨some [⟨[span9]⟩]⟩] else [] }

/-- C9: resolution fallback with font-name normalization.  On `page9`,
`resolve` returns family `"Arial"`, size 12, not bold, not italic.  The
normalization is a first-match-wins case-insensitive substring lookup:
any raw name containing `"times"` (the first key) maps to
`"Times New Roman"`; a name containing `"arial"` maps to `"Arial"`
provided no earlier key (`"times"`/`"helv"` material) occurs in it; names
containing no key pass through unchanged. -/
theorem resolve_fallback_normalization :
    extractFormat [page9] tbl9 =
      Except.ok { font_name := "Arial", font_size := 12, is_bold := false,
                  is_italic := false, color := (0, 0, 0) } ∧
    (∀ fn : String, containsSub (lowerList fn.data) "times".data = true →
      normalizeFontName fn = "Times New Roman") ∧
    (∀ fn : String, containsSub (lowerList fn.data) "arial".data = true →
      containsSub (lowerList fn.data) "times".data = false →
      containsSub (lowerList fn.data) "helv".data = false →
      normalizeFontName fn = "Arial") ∧
    (∀ fn : String,
      (∀ kv ∈ fontMapping, containsSub (lowerList fn.data) kv.1.data = false) →
      normalizeFontName fn = fn) := by
  refine ⟨rfl, ?_, ?_, ?_⟩
  · intro fn h
    simp [normalizeFontName, fontMapping, List.find?, h]
  · intro fn h1 h2 h3
    have d1 := containsSub_step (lowerList fn.data) "times-roman".data
      "times".data "-roman".data (by decide) h2
    have d2 := containsSub_step (lowerList fn.data) "timesnewroman".data
      "times".data "newroman".data (by decide) h2
    have d3 := containsSub_step (lowerList fn.data) "timesnewromanps".data
      "times".data "newromanps".data (by decide) h2
    have d4 := containsSub_step (lowerList fn.data) "timesnewromanpsmt".data
      "times".data "newromanpsmt".data (by decide) h2
    have d5 := containsSub_step (lowerList fn.data) "helvetica".data
      "helv".data "etica".data (by decide) h3
    simp [normalizeFontName, fontMapping, List.find?, h1, h2, h3, d1, d2,
      d3, d4, d5]
  · intro fn hall
    have hnone : List.find?
        (fun kv => containsSub (lowerList fn.data) kv.1.data) fontMapping
        = none :=
      List.find?_eq_none.mpr (fun kv hkv => by simp [hall kv hkv])
    simp only [normalizeFontName, hnone]

/-- Witness for C9: `"TimesNewRomanPSMT"` contains `"times"` and
normalizes to `"Times New Roman"`. -/
theorem resolve_fallback_normalization_witness :
    normalizeFontName "TimesNewRomanPSMT" = "Times New Roman" :=
  resolve_fallback_normalization.2.1 "TimesNewRomanPSMT" (by decide)

/-- C10: for a readable document with zero extracted occurrences,
`analyze` returns an empty occurrence list, an empty decision list,
`format_uniform = true`, an absent representative format, and both
derived counts zero; `check_uniformity` of an empty list is `true` and
`get_common_format` of an empty list is absent. -/
theorem analyze_empty_document (fmt : TableInfo → FormatInfo) :
    analyzeFromTables [] fmt =
      { all_tables := [], modifications := [], format_uniform := true,
        format_info := none, total_tables := 0, tables_to_modify := 0 } ∧
    checkUniformity [] = true ∧ getCommonFormat [] = none :=
  ⟨rfl, rfl, rfl⟩

/-! ### The modifier (`src/core/modifier.py`)

`apply_modifications` iterates the decisions; per decision it skips
occurrences whose page is out of range or whose title rectangle cannot be
found, redacts, and inserts the replacement text, retrying exactly once
with the default font name on an insertion failure; any exception escaping
this (in particular the retry also failing) aborts the whole batch as a
`ModificationError`. -/

/-- Write-path page abstraction: `findRect` is the outcome of
`_find_title_rect` (a wrapper over the backend's `search_for` and
`get_text`, not itself under test here), and `insertOk fontname` is
whether the backend's `insert_text` succeeds with that registered font
name (redaction is modelled as always succeeding). -/
structure WPage where
  findRect : String → Option PdfRect
  insertOk : String → Bool

/-- Embeds `_get_font_name`'s base-font table (the cache-miss path), in source
order. -/
def baseFontMap : List (String × String) :=
  [("times", "tiro"),
   ("times new roman", "tiro"),
   ("arial", "helv"),
   ("helvetica", "helv"),
   ("courier", "cour"),
   ("courier new", "cour")]

/-- Model of `_get_font_name` on a cache miss: first base-font key contained in
the lower-cased family name, else the default font name. -/
def baseFontName (fi : FormatInfo) : String :=
  match baseFontMap.find?
      (fun kv => containsSub (lowerList fi.font_name.data) kv.1.data) with
  | some kv => kv.2
  | none => DEFAULT_FONT_NAME

/-- The loop of `apply_modifications`, with the running `applied_count`.
`loader` abstracts `_load_font_if_needed`'s filesystem probing: the
registered per-variant font name when a matching system font file was
found, else `none` (the code then falls back to the base-font table).
The final `Except.error` is the `ModificationError` raised when the
default-font retry of `insert_text` also fails. -/
def applyModsGo (doc : List WPage) (loader : FormatInfo → Option String)
    (customFormat : Option FormatInfo) :
    List Modification → Nat → Except String Nat
  | [], count => Except.ok count
  | mod :: mods, count =>
    if needsModification mod then
      match doc[mod.page - 1]? with
      | none => applyModsGo doc loader customFormat mods count
      | some page =>
        match page.findRect mod.original_title with
        | none => applyModsGo doc loader customFormat mods count
        | some _ =>
          let fi := (customFormat <|> mod.format_info).getD defaultFormatInfo
          let fname := (loader fi).getD (baseFontName fi)
          if page.insertOk fname then
            applyModsGo doc loader customFormat mods (count + 1)
          else if page.insertOk DEFAULT_FONT_NAME then
            applyModsGo doc loader customFormat mods (count + 1)
          else Except.error "ModificationError"
    else applyModsGo doc loader customFormat mods count

/-- Model of `PDFModifier.apply_modifications`. -/
def applyModifications (doc : List WPage) (loader : FormatInfo → Option String)
    (mods : List Modification) (customFormat : Option FormatInfo) :
    Except String Nat :=
  applyModsGo doc loader customFormat mods 0

/-- A decision is applied (and counted) iff it needs modification, its
page exists, its title rectangle is found, and inserting succeeds with
the resolved font name or on the one default-font retry. -/
def modApplies (doc : List WPage) (loader : FormatInfo → Option String)
    (custom : Option FormatInfo) (mod : Modification) : Bool :=
  needsModification mod &&
    match doc[mod.page - 1]? with
    | none => false
    | some page =>
      match page.findRect mod.original_title with
      | none => false
      | some _ =>
        let fi := (custom <|> mod.format_info).getD defaultFormatInfo
        page.insertOk ((loader fi).getD (baseFontName fi))
          || page.insertOk DEFAULT_FONT_NAME

/-- A decision is fatal iff it needs modification, its page and rectangle
are found, and both the resolved-font insert and the default-font retry
fail. -/
def modFatal (doc : List WPage) (loader : FormatInfo → Option String)
    (custom : Option FormatInfo) (mod : Modification) : Bool :=
  needsModification mod &&
    match doc[mod.page - 1]? with
    | none => false
    | some page =>
      match page.findRect mod.original_title with
      | none => false
      | some _ =>
        let fi := (custom <|> mod.format_info).getD defaultFormatInfo
        !(page.insertOk ((loader fi).getD (baseFontName fi))
          || page.insertOk DEFAULT_FONT_NAME)

theorem applyModsGo_spec (doc : List WPage) (loader : FormatInfo → Option String)
    (custom : Option FormatInfo) :
    ∀ (mods : List Modification) (count : Nat),
      (∀ mod ∈ mods, modFatal doc loader custom mod = false) →
      applyModsGo doc loader custom mods count
        = Except.ok (count + mods.countP (modApplies doc loader custom)) := by
  intro mods
  induction mods with
  | nil => intro count _; simp [applyModsGo]
  | cons mod mods ih =>
    intro count h
    have hmod := h mod (List.mem_cons_self mod mods)
    have hrest : ∀ m ∈ mods, modFatal doc loader custom m = false :=
      fun m hm => h m (List.mem_cons_of_mem mod hm)
    rw [List.countP_cons]
    simp only [applyModsGo]
    by_cases hneed : needsModification mod = true
    · rw [if_pos hneed]
      cases hpage : doc[mod.page - 1]? with
      | none =>
        dsimp only
        rw [ih count hrest]
        have happ : modApplies doc loader custom mod = false := by
          simp [modApplies, hpage]
        rw [happ]
        simp
      | some page =>
        dsimp only
        cases hrect : page.findRect mod.original_title with
        | none =>
          dsimp only
          rw [ih count hrest]
          have happ : modApplies doc loader custom mod = false := by
            simp [modApplies, hpage, hrect]
          rw [happ]
          simp
        | some rect =>
          dsimp only
          by_cases hins : page.insertOk
              ((loader ((custom <|> mod.format_info).getD defaultFormatInfo)).getD
                (baseFontName ((custom <|> mod.format_info).getD defaultFormatInfo)))
              = true
          · rw [if_pos hins, ih (count + 1) hrest]
            have happ : modApplies doc loader custom mod = true := by
              simp [modApplies, hpage, hrect, hneed, hins]
            rw [happ]
            simp
            omega
          · rw [if_neg hins]
            by_cases hdef : page.insertOk DEFAULT_FONT_NAME = true
            · rw [if_pos hdef, ih (count + 1) hrest]
              have happ : modApplies doc loader custom mod = true := by
                simp [modApplies, hpage, hrect, hneed, hdef]
              rw [happ]
              simp
              omega
            · exfalso
              have hins' : page.insertOk
                  ((loader ((custom <|> mod.format_info).getD defaultFormatInfo)).getD
                    (baseFontName ((custom <|> mod.format_info).getD defaultFormatInfo)))
                  = false := by simpa using hins
              have hdef' : page.insertOk DEFAULT_FONT_NAME = false := by
                simpa using hdef
              have hfat : modFatal doc loader custom mod = true := by
                simp [modFatal, hpage, hrect, hneed, hins', hdef']
              rw [hfat] at hmod
              exact Bool.noConfusion hmod
    · rw [if_neg hneed, ih count hrest]
      have happ : modApplies doc loader custom mod = false := by
        simp [modApplies, hneed]
      rw [happ]
      simp

/-! ### Claim theorems C8 -/

/-- A page on which the title is found but every insertion fails. -/
def wpageBad : WPage :=
  { findRect := fun _ => some ⟨0, 0, 1, 1⟩, insertOk := fun _ => false }

/-- A page on which the title is found and every insertion succeeds. -/
def wpageGood : WPage :=
  { findRect := fun _ => some ⟨0, 0, 1, 1⟩, insertOk := fun _ => true }

def modBad : Modification :=
  { page := 1, original_title := "Tabla 1. X",
    modified_title := "Tabla 1. X (1/2)", repetition_number := some 1,
    total_repetitions := 2, format_info := some defaultFormatInfo }

def modGood : Modification :=
  { page := 2, original_title := "Tabla 1. X",
    modified_title := "Tabla 1. X (2/2)", repetition_number := some 2,
    total_repetitions := 2, format_info := some defaultFormatInfo }

/-- C8 counterexample: when both the requested-font insert and the
default-font retry fail for one occurrence, `apply_modifications` does
not continue with the remaining occurrences and does not return a count:
it aborts the whole batch with `ModificationError` — even though the
second occurrence alone would have applied successfully. -/
theorem apply_modifications_counterexample :
    applyModifications [wpageBad, wpageGood] (fun _ => none)
        [modBad, modGood] none = Except.error "ModificationError" ∧
    applyModifications [wpageBad, wpageGood] (fun _ => none)
        [modGood] none = Except.ok 1 :=
  ⟨rfl, rfl⟩

/-- C8 amended: the apply step retries a failed insertion exactly once
with the fixed default font name, and the per-occurrence failures that
are absorbed are: page out of range, title rectangle not found, and a
requested-font insertion failure whose default-font retry succeeds.
Provided no occurrence fails both insertion attempts, the batch runs to
completion and returns the count of successfully applied modifications;
an occurrence failing both attempts aborts the whole batch
(`ModificationError`), as the counterexample shows. -/
theorem apply_modifications_amended (doc : List WPage)
    (loader : FormatInfo → Option String) (custom : Option FormatInfo)
    (mods : List Modification)
    (h : ∀ mod ∈ mods, modFatal doc loader custom mod = false) :
    applyModifications doc loader mods custom
      = Except.ok (mods.countP (modApplies doc loader custom)) ∧
    ∀ mod page, doc[mod.page - 1]? = some page →
      needsModification mod = true →
      (page.findRect mod.original_title).isSome = true →
      page.insertOk DEFAULT_FONT_NAME = true →
      modApplies doc loader custom mod = true := by
  constructor
  · have := applyModsGo_spec doc loader custom mods 0 h
    rw [applyModifications, this, Nat.zero_add]
  · intro mod page hpage hneed hrect hdef
    cases hr : page.findRect mod.original_title with
    | none => rw [hr] at hrect; exact Bool.noConfusion hrect
    | some rect => simp [modApplies, hpage, hr, hneed, hdef]

/-- A page that only accepts insertions with the default font name. -/
def wpageHelvOnly : WPage :=
  { findRect := fun _ => some ⟨0, 0, 1, 1⟩,
    insertOk := fun f => f == "helv" }

/-- A decision whose resolved format is Times New Roman: its base font is
`"tiro"`, whose insertion fails on `wpageHelvOnly`, so it succeeds only
through the one default-font retry. -/
def modTimes : Modification :=
  { page := 1, original_title := "Tabla 2. Y",
    modified_title := "Tabla 2. Y (1/2)", repetition_number := some 1,
    total_repetitions := 2,
    format_info := some { font_name := "Times New Roman", font_size := 12,
                          is_bold := false, is_italic := false,
                          color := (0, 0, 0) } }

/-- A decision whose page is beyond the document: skipped, not fatal. -/
def modNoPage : Modification :=
  { page := 3, original_title := "Tabla 9. Z",
    modified_title := "Tabla 9. Z (1/2)", repetition_number := some 1,
    total_repetitions := 2, format_info := none }

/-- Witness for C8 amended: one occurrence applied via the default-font
retry and one skipped out-of-range occurrence give a returned count
of 1. -/
theorem apply_modifications_amended_witness :
    applyModifications [wpageHelvOnly] (fun _ => none)
      [modTimes, modNoPage] none = Except.ok 1 := by
  rw [(apply_modifications_amended [wpageHelvOnly] (fun _ => none) none
    [modTimes, modNoPage] (by decide)).1]
  rfl

end ApaFix
